import Mathlib

/-!
A Lean model of the chess engine in `chessEngine.cpp`.

The C++ program is translated into executable Lean definitions:

* pieces are tagged values (color, kind) instead of virtual classes;
* the mutable `Board` (8x8 grid of owning pointers, castling flags,
  en-passant target, incremental Zobrist hash, undo stack) becomes a
  record that every mutating operation maps to a new value;
* `uint64_t` Zobrist keys become natural numbers combined with `Nat.xor`
  (xor never leaves the 64-bit range, so no explicit truncation is needed);
* `double` scores become rationals; every score-producing expression in the
  source is built from exactly representable literals and the operations
  used on them are mirrored term by term;
* the recursive searches (`minimax`, `quiescenceSearch`) take an explicit
  fuel argument for termination; every statement proved below is about
  call shapes where the fuel is not exhausted;
* the parallel root split of `findBestMove` (std::async tasks sharing an
  unsynchronized transposition table) is modelled by abstracting the score
  a root task reports as a function of (iteration depth, move): the results
  are collected in move order in the source, so the root reduction itself
  is deterministic in those scores.

Places where the C++ code has undefined behaviour (null dereference when a
move names an empty from-square, out-of-range raw grid writes) are modelled
as no-ops; all theorems that depend on such paths carry hypotheses that keep
the model inside the defined behaviour of the source.
-/

set_option maxRecDepth 100000
set_option maxHeartbeats 2000000

inductive Color where
  | WHITE
  | BLACK
  | NONE
deriving DecidableEq

open Color

inductive PieceType where
  | PAWN
  | KNIGHT
  | BISHOP
  | ROOK
  | QUEEN
  | KING
deriving DecidableEq

open PieceType

/-- A piece is its color together with its kind (`IMoveable` subclass). -/
structure Piece where
  color : Color
  kind : PieceType
deriving DecidableEq

/-- `struct Position { int row, col; }`. -/
structure Position where
  row : Int
  col : Int
deriving DecidableEq

/-- `struct Move`; the promotion char (space = none, q/r/b/n) becomes an
`Option PieceType`, which is what the move generator actually emits. -/
structure Move where
  fromSq : Position
  toSq : Position
  promotionPiece : Option PieceType := none
deriving DecidableEq

/-- The undo record pushed by `makeMove` / `makeNullMove`. Fields that the
source leaves uninitialized on some paths are defaulted; they are never read
on those paths. -/
structure BoardState where
  move : Move := { fromSq := ⟨-1, -1⟩, toSq := ⟨-1, -1⟩ }
  capturedPiece : Option Piece := none
  enPassantTargetSquare : Position := ⟨-1, -1⟩
  whiteKingMoved : Bool := false
  blackKingMoved : Bool := false
  whiteRookAMoved : Bool := false
  whiteRookHMoved : Bool := false
  blackRookAMoved : Bool := false
  blackRookHMoved : Bool := false
  hashKey : Nat := 0
deriving DecidableEq

/-- The process-wide Zobrist key tables. The C++ code fills them from a
seeded mt19937_64; the concrete pseudo-random values never matter for the
properties below, so the tables are kept abstract. -/
structure Zobrist where
  pieceKeys : Color → PieceType → Int → Nat
  sideKey : Nat
  castleKeys : Nat → Nat
  enPassantKeys : Int → Nat

/-- The all-zero key table, used to instantiate theorems on concrete boards. -/
def zob0 : Zobrist :=
  { pieceKeys := fun _ _ _ => 0
    sideKey := 0
    castleKeys := fun _ => 0
    enPassantKeys := fun _ => 0 }

abbrev Grid := List (List (Option Piece))

/-- Raw grid read, `grid[r][c]`; out of range (UB in the source) gives none. -/
def gridGetG (g : Grid) (r c : Int) : Option Piece :=
  if 0 ≤ r ∧ r < 8 ∧ 0 ≤ c ∧ c < 8 then (g.getD r.toNat []).getD c.toNat none
  else none

/-- Raw grid write, `grid[r][c] = v`; out of range (UB in the source) is a
no-op. -/
def gridSet (g : Grid) (r c : Int) (v : Option Piece) : Grid :=
  if 0 ≤ r ∧ r < 8 ∧ 0 ≤ c ∧ c < 8 then
    g.set r.toNat ((g.getD r.toNat []).set c.toNat v)
  else g

/-- The `Board` class. -/
structure Board where
  grid : Grid
  whiteKingMoved : Bool := false
  blackKingMoved : Bool := false
  whiteRookAMoved : Bool := false
  whiteRookHMoved : Bool := false
  blackRookAMoved : Bool := false
  blackRookHMoved : Bool := false
  enPassantTargetSquare : Position := ⟨-1, -1⟩
  hashKey : Nat := 0
  history : List BoardState := []
deriving DecidableEq

def isValidPosition (p : Position) : Bool :=
  0 ≤ p.row && p.row < 8 && 0 ≤ p.col && p.col < 8

def getPiece (b : Board) (p : Position) : Option Piece :=
  if isValidPosition p then gridGetG b.grid p.row p.col else none

def getPieceColor (b : Board) (p : Position) : Color :=
  match getPiece b p with
  | some q => q.color
  | none => NONE

def setPiece (b : Board) (p : Position) (piece : Option Piece) : Board :=
  if isValidPosition p then { b with grid := gridSet b.grid p.row p.col piece }
  else b

def getEnPassantTarget (b : Board) : Position := b.enPassantTargetSquare

def getHashKey (b : Board) : Nat := b.hashKey

def canWhiteCastleKingside (b : Board) : Bool :=
  !b.whiteKingMoved && !b.whiteRookHMoved

def canWhiteCastleQueenside (b : Board) : Bool :=
  !b.whiteKingMoved && !b.whiteRookAMoved

def canBlackCastleKingside (b : Board) : Bool :=
  !b.blackKingMoved && !b.blackRookHMoved

def canBlackCastleQueenside (b : Board) : Bool :=
  !b.blackKingMoved && !b.blackRookAMoved

/-- `(color == WHITE) ? BLACK : WHITE`, as written at every use site. -/
def opposite (c : Color) : Color :=
  if c = WHITE then BLACK else WHITE

/-- Pawn pseudo-legal moves (`Pawn::getValidMoves`). -/
def pawnMoves (c : Color) (pos : Position) (b : Board) : List Move :=
  let direction : Int := if c = WHITE then -1 else 1
  let promotionRank : Int := if c = WHITE then 0 else 7
  let oneStep : Position := ⟨pos.row + direction, pos.col⟩
  let pushes :=
    if isValidPosition oneStep ∧ getPieceColor b oneStep = NONE then
      (if oneStep.row = promotionRank then
        [{ fromSq := pos, toSq := oneStep, promotionPiece := some QUEEN },
         { fromSq := pos, toSq := oneStep, promotionPiece := some ROOK },
         { fromSq := pos, toSq := oneStep, promotionPiece := some BISHOP },
         { fromSq := pos, toSq := oneStep, promotionPiece := some KNIGHT }]
      else [{ fromSq := pos, toSq := oneStep }]) ++
      (if (c = WHITE ∧ pos.row = 6) ∨ (c = BLACK ∧ pos.row = 1) then
        let twoSteps : Position := ⟨pos.row + 2 * direction, pos.col⟩
        if isValidPosition twoSteps ∧ getPieceColor b twoSteps = NONE then
          [{ fromSq := pos, toSq := twoSteps }]
        else []
      else [])
    else []
  let capAt : Int → List Move := fun dCol =>
    let capPos : Position := ⟨pos.row + direction, pos.col + dCol⟩
    if isValidPosition capPos ∧ getPieceColor b capPos ≠ NONE ∧
        getPieceColor b capPos ≠ c then
      if capPos.row = promotionRank then
        [{ fromSq := pos, toSq := capPos, promotionPiece := some QUEEN },
         { fromSq := pos, toSq := capPos, promotionPiece := some ROOK },
         { fromSq := pos, toSq := capPos, promotionPiece := some BISHOP },
         { fromSq := pos, toSq := capPos, promotionPiece := some KNIGHT }]
      else [{ fromSq := pos, toSq := capPos }]
    else []
  let ep := getEnPassantTarget b
  let epMoves :=
    if ep.row ≠ -1 ∧ ep.row = pos.row + direction ∧ (ep.col - pos.col).natAbs = 1 then
      [{ fromSq := pos, toSq := ep }]
    else []
  pushes ++ capAt (-1) ++ capAt 1 ++ epMoves

/-- One sliding ray (`while (true)` loop bodies of Rook/Bishop/Queen).
The fuel 8 covers every run the loop can make on an 8x8 grid. -/
def slideRay (c : Color) (pos : Position) (b : Board) (dRow dCol : Int) :
    Nat → Position → List Move
  | 0, _ => []
  | n + 1, cur =>
    let nxt : Position := ⟨cur.row + dRow, cur.col + dCol⟩
    if isValidPosition nxt then
      if getPieceColor b nxt = NONE then
        { fromSq := pos, toSq := nxt } :: slideRay c pos b dRow dCol n nxt
      else if getPieceColor b nxt ≠ c then [{ fromSq := pos, toSq := nxt }]
      else []
    else []

def slideFrom (c : Color) (pos : Position) (b : Board) (dRow dCol : Int) : List Move :=
  slideRay c pos b dRow dCol 8 pos

/-- `Rook::getValidMoves`. -/
def rookMoves (c : Color) (pos : Position) (b : Board) : List Move :=
  slideFrom c pos b 1 0 ++ slideFrom c pos b (-1) 0 ++
  slideFrom c pos b 0 1 ++ slideFrom c pos b 0 (-1)

/-- `Bishop::getValidMoves`. -/
def bishopMoves (c : Color) (pos : Position) (b : Board) : List Move :=
  slideFrom c pos b (-1) (-1) ++ slideFrom c pos b (-1) 1 ++
  slideFrom c pos b 1 (-1) ++ slideFrom c pos b 1 1

/-- `Knight::getValidMoves`. -/
def knightMoves (c : Color) (pos : Position) (b : Board) : List Move :=
  [((2 : Int), (1 : Int)), (2, -1), (1, 2), (1, -2),
   (-2, 1), (-2, -1), (-1, 2), (-1, -2)].foldl
    (fun acc d =>
      let newPos : Position := ⟨pos.row + d.1, pos.col + d.2⟩
      if isValidPosition newPos ∧ getPieceColor b newPos ≠ c then
        acc ++ [{ fromSq := pos, toSq := newPos }]
      else acc) []

/-- `Queen::getValidMoves` (directions in the loop order of the source). -/
def queenMoves (c : Color) (pos : Position) (b : Board) : List Move :=
  slideFrom c pos b (-1) (-1) ++ slideFrom c pos b (-1) 0 ++
  slideFrom c pos b (-1) 1 ++ slideFrom c pos b 0 (-1) ++
  slideFrom c pos b 0 1 ++ slideFrom c pos b 1 (-1) ++
  slideFrom c pos b 1 0 ++ slideFrom c pos b 1 1

/-- `Board::isSquareAttackedBy`. Pawn and king attackers are special-cased
as in the source; the remaining kinds test membership of the target square
in their pseudo-legal move list. -/
def isSquareAttackedBy (b : Board) (pos : Position) (attackerColor : Color) : Bool :=
  (List.range 8).any fun r =>
    (List.range 8).any fun c =>
      let cur : Position := ⟨(r : Int), (c : Int)⟩
      match getPiece b cur with
      | none => false
      | some q =>
        q.color = attackerColor &&
        (match q.kind with
         | PAWN =>
           let dir : Int := if attackerColor = WHITE then -1 else 1
           decide (pos.row = (r : Int) + dir ∧
             (pos.col = (c : Int) - 1 ∨ pos.col = (c : Int) + 1))
         | KING =>
           decide ((pos.row - (r : Int)).natAbs ≤ 1 ∧ (pos.col - (c : Int)).natAbs ≤ 1)
         | KNIGHT => (knightMoves q.color cur b).any fun m => m.toSq = pos
         | BISHOP => (bishopMoves q.color cur b).any fun m => m.toSq = pos
         | ROOK => (rookMoves q.color cur b).any fun m => m.toSq = pos
         | QUEEN => (queenMoves q.color cur b).any fun m => m.toSq = pos)

/-- `Board::findKing`. -/
def findKing (b : Board) (kingColor : Color) : Position :=
  match (List.range 8).findSome? (fun r =>
    (List.range 8).findSome? fun c =>
      match getPiece b ⟨(r : Int), (c : Int)⟩ with
      | some q => if q.color = kingColor ∧ q.kind = KING then
          some (⟨(r : Int), (c : Int)⟩ : Position) else none
      | none => none) with
  | some p => p
  | none => ⟨-1, -1⟩

/-- `Board::isKingInCheck`. -/
def isKingInCheck (b : Board) (kingColor : Color) : Bool :=
  let kingPos := findKing b kingColor
  if kingPos.row = -1 then true
  else isSquareAttackedBy b kingPos (opposite kingColor)

/-- `King::addCastlingMoves` (only the appended castling moves). -/
def addCastlingMoves (c : Color) (pos : Position) (b : Board) : List Move :=
  if isKingInCheck b c then []
  else
    let opp := opposite c
    (if ((c = WHITE ∧ canWhiteCastleKingside b = true) ∨
         (c = BLACK ∧ canBlackCastleKingside b = true)) ∧
        getPiece b ⟨pos.row, 5⟩ = none ∧ getPiece b ⟨pos.row, 6⟩ = none ∧
        isSquareAttackedBy b ⟨pos.row, 5⟩ opp = false ∧
        isSquareAttackedBy b ⟨pos.row, 6⟩ opp = false then
      [{ fromSq := pos, toSq := ⟨pos.row, 6⟩ }]
    else []) ++
    (if ((c = WHITE ∧ canWhiteCastleQueenside b = true) ∨
         (c = BLACK ∧ canBlackCastleQueenside b = true)) ∧
        getPiece b ⟨pos.row, 1⟩ = none ∧ getPiece b ⟨pos.row, 2⟩ = none ∧
        getPiece b ⟨pos.row, 3⟩ = none ∧
        isSquareAttackedBy b ⟨pos.row, 2⟩ opp = false ∧
        isSquareAttackedBy b ⟨pos.row, 3⟩ opp = false then
      [{ fromSq := pos, toSq := ⟨pos.row, 2⟩ }]
    else [])

/-- `King::getValidMoves`: eight adjacent squares plus castling. -/
def kingMoves (c : Color) (pos : Position) (b : Board) : List Move :=
  ([((-1 : Int), (-1 : Int)), (-1, 0), (-1, 1), (0, -1),
    (0, 1), (1, -1), (1, 0), (1, 1)].foldl
    (fun acc d =>
      let newPos : Position := ⟨pos.row + d.1, pos.col + d.2⟩
      if isValidPosition newPos ∧ getPieceColor b newPos ≠ c then
        acc ++ [{ fromSq := pos, toSq := newPos }]
      else acc) []) ++ addCastlingMoves c pos b

/-- Virtual dispatch of `getValidMoves`. -/
def getValidMoves (q : Piece) (pos : Position) (b : Board) : List Move :=
  match q.kind with
  | PAWN => pawnMoves q.color pos b
  | KNIGHT => knightMoves q.color pos b
  | BISHOP => bishopMoves q.color pos b
  | ROOK => rookMoves q.color pos b
  | QUEEN => queenMoves q.color pos b
  | KING => kingMoves q.color pos b

/-- The castling-rights bitmap
`(wk << 3) | (wq << 2) | (bk << 1) | bq` used to index `castleKeys`. -/
def rightsBits (wk wq bk bq : Bool) : Nat :=
  (if wk then 8 else 0) + (if wq then 4 else 0) +
  (if bk then 2 else 0) + (if bq then 1 else 0)

/-- `Board::makeMove`. The source first pushes the undo record, then updates
the has-moved flags, extracts a captured piece (normal or en passant),
accumulates the hash changes, moves the piece (plus the castling rook),
applies promotion, and finally flips the side key. A move whose from-square
is empty dereferences null in the source; the model returns the board
unchanged on that path, and every theorem touching it assumes a piece is
present. -/
def makeMove (Z : Zobrist) (b : Board) (m : Move) : Board :=
  match getPiece b m.fromSq with
  | none => b
  | some p =>
    let fr := m.fromSq
    let t := m.toSq
    -- castling has-moved flags (from-square corners only, as in the source)
    let wkm := if p.kind = KING ∧ p.color = WHITE then true else b.whiteKingMoved
    let bkm := if p.kind = KING ∧ p.color ≠ WHITE then true else b.blackKingMoved
    let wra := if fr.row = 7 ∧ fr.col = 0 then true else b.whiteRookAMoved
    let wrh := if fr.row = 7 ∧ fr.col = 7 then true else b.whiteRookHMoved
    let bra := if fr.row = 0 ∧ fr.col = 0 then true else b.blackRookAMoved
    let brh := if fr.row = 0 ∧ fr.col = 7 then true else b.blackRookHMoved
    -- capture extraction
    let capturedAtTo := getPiece b t
    let capturedPawnRow : Int := if p.color = WHITE then t.row + 1 else t.row - 1
    let captured : Option Piece :=
      match capturedAtTo with
      | some cp => some cp
      | none =>
        if p.kind = PAWN ∧ t = b.enPassantTargetSquare then
          getPiece b ⟨capturedPawnRow, t.col⟩
        else none
    let h1 :=
      match capturedAtTo with
      | some cp => Nat.xor b.hashKey (Z.pieceKeys cp.color cp.kind (t.row * 8 + t.col))
      | none =>
        if p.kind = PAWN ∧ t = b.enPassantTargetSquare then
          match getPiece b ⟨capturedPawnRow, t.col⟩ with
          | some cp2 =>
            Nat.xor b.hashKey (Z.pieceKeys cp2.color PAWN (capturedPawnRow * 8 + t.col))
          | none => b.hashKey
        else b.hashKey
    let h2 := Nat.xor (Nat.xor h1 (Z.pieceKeys p.color p.kind (fr.row * 8 + fr.col)))
      (Z.pieceKeys p.color p.kind (t.row * 8 + t.col))
    let h3 := if b.enPassantTargetSquare.col ≠ -1 then
        Nat.xor h2 (Z.enPassantKeys b.enPassantTargetSquare.col)
      else h2
    let newEP : Position :=
      if p.kind = PAWN ∧ (fr.row - t.row).natAbs = 2 then ⟨(fr.row + t.row) / 2, fr.col⟩
      else ⟨-1, -1⟩
    let h4 := if p.kind = PAWN ∧ (fr.row - t.row).natAbs = 2 then
        Nat.xor h3 (Z.enPassantKeys fr.col)
      else h3
    let oldRights := rightsBits
      (!b.whiteKingMoved && !b.whiteRookHMoved) (!b.whiteKingMoved && !b.whiteRookAMoved)
      (!b.blackKingMoved && !b.blackRookHMoved) (!b.blackKingMoved && !b.blackRookAMoved)
    let newRights := rightsBits (!wkm && !wrh) (!wkm && !wra) (!bkm && !brh) (!bkm && !bra)
    let h5 := if oldRights ≠ newRights then
        Nat.xor (Nat.xor h4 (Z.castleKeys oldRights)) (Z.castleKeys newRights)
      else h4
    -- grid: remove a captured pawn (en passant) or the moved-from captive
    let g1 :=
      match capturedAtTo with
      | some _ => gridSet b.grid t.row t.col none
      | none =>
        if p.kind = PAWN ∧ t = b.enPassantTargetSquare then
          gridSet b.grid capturedPawnRow t.col none
        else b.grid
    -- grid[to] = move(grid[from])
    let movedPiece := gridGetG g1 fr.row fr.col
    let g2 := gridSet (gridSet g1 t.row t.col movedPiece) fr.row fr.col none
    -- castling rook transfer plus its hash keys
    let g3 :=
      if p.kind = KING ∧ (t.col - fr.col).natAbs = 2 then
        if t.col = 6 then
          let rook := gridGetG g2 fr.row 7
          gridSet (gridSet g2 fr.row 5 rook) fr.row 7 none
        else
          let rook := gridGetG g2 fr.row 0
          gridSet (gridSet g2 fr.row 3 rook) fr.row 0 none
      else g2
    let h6 :=
      if p.kind = KING ∧ (t.col - fr.col).natAbs = 2 then
        if t.col = 6 then
          Nat.xor (Nat.xor h5 (Z.pieceKeys p.color ROOK (fr.row * 8 + 7)))
            (Z.pieceKeys p.color ROOK (fr.row * 8 + 5))
        else
          Nat.xor (Nat.xor h5 (Z.pieceKeys p.color ROOK (fr.row * 8 + 0)))
            (Z.pieceKeys p.color ROOK (fr.row * 8 + 3))
      else h5
    -- promotion
    let g4 :=
      match m.promotionPiece with
      | none => g3
      | some pk =>
        if isValidPosition t then gridSet g3 t.row t.col (some ⟨p.color, pk⟩) else g3
    let h7 :=
      match m.promotionPiece with
      | none => h6
      | some pk =>
        Nat.xor (Nat.xor h6 (Z.pieceKeys p.color PAWN (t.row * 8 + t.col)))
          (Z.pieceKeys p.color pk (t.row * 8 + t.col))
    let st : BoardState :=
      { move := m
        capturedPiece := captured
        enPassantTargetSquare := b.enPassantTargetSquare
        whiteKingMoved := b.whiteKingMoved
        blackKingMoved := b.blackKingMoved
        whiteRookAMoved := b.whiteRookAMoved
        whiteRookHMoved := b.whiteRookHMoved
        blackRookAMoved := b.blackRookAMoved
        blackRookHMoved := b.blackRookHMoved
        hashKey := b.hashKey }
    { grid := g4
      whiteKingMoved := wkm
      blackKingMoved := bkm
      whiteRookAMoved := wra
      whiteRookHMoved := wrh
      blackRookAMoved := bra
      blackRookHMoved := brh
      enPassantTargetSquare := newEP
      hashKey := Nat.xor h7 Z.sideKey
      history := st :: b.history }

/-- `Board::unmakeMove`: pop the undo record, restore every scalar field by
assignment, undo the grid changes (promotion, castling rook, captured
piece). An empty history is a no-op, as in the source. -/
def unmakeMove (b : Board) : Board :=
  match b.history with
  | [] => b
  | st :: h =>
    let m := st.move
    let fr := m.fromSq
    let t := m.toSq
    let g1 :=
      match m.promotionPiece with
      | some _ =>
        let colorAtTo := ((gridGetG b.grid t.row t.col).map Piece.color).getD WHITE
        gridSet (gridSet b.grid fr.row fr.col (some ⟨colorAtTo, PAWN⟩)) t.row t.col none
      | none =>
        let moved := gridGetG b.grid t.row t.col
        gridSet (gridSet b.grid fr.row fr.col moved) t.row t.col none
    let pieceAtFrom := gridGetG g1 fr.row fr.col
    let g2 :=
      match pieceAtFrom with
      | some q =>
        if q.kind = KING ∧ (t.col - fr.col).natAbs = 2 then
          if t.col = 6 then
            let rook := gridGetG g1 fr.row 5
            gridSet (gridSet g1 fr.row 7 rook) fr.row 5 none
          else
            let rook := gridGetG g1 fr.row 3
            gridSet (gridSet g1 fr.row 0 rook) fr.row 3 none
        else g1
      | none => g1
    let g3 :=
      match st.capturedPiece with
      | none => g2
      | some cp =>
        match pieceAtFrom with
        | some q =>
          if q.kind = PAWN ∧ t = st.enPassantTargetSquare then
            let capturedPawnRow : Int := if q.color = WHITE then t.row + 1 else t.row - 1
            gridSet (gridSet g2 capturedPawnRow t.col (some cp)) t.row t.col none
          else gridSet g2 t.row t.col (some cp)
        | none => gridSet g2 t.row t.col (some cp)
    { grid := g3
      whiteKingMoved := st.whiteKingMoved
      blackKingMoved := st.blackKingMoved
      whiteRookAMoved := st.whiteRookAMoved
      whiteRookHMoved := st.whiteRookHMoved
      blackRookAMoved := st.blackRookAMoved
      blackRookHMoved := st.blackRookHMoved
      enPassantTargetSquare := st.enPassantTargetSquare
      hashKey := st.hashKey
      history := h }

/-- `Board::makeNullMove`: push hash and en-passant target, clear the
target, xor out its file key, flip the side key. The undo record fields the
source leaves uninitialized are defaulted and never read. -/
def makeNullMove (Z : Zobrist) (b : Board) : Board :=
  let st : BoardState :=
    { hashKey := b.hashKey, enPassantTargetSquare := b.enPassantTargetSquare }
  let h1 := if b.enPassantTargetSquare.col ≠ -1 then
      Nat.xor b.hashKey (Z.enPassantKeys b.enPassantTargetSquare.col)
    else b.hashKey
  { b with
    history := st :: b.history
    enPassantTargetSquare := ⟨-1, -1⟩
    hashKey := Nat.xor h1 Z.sideKey }

/-- `Board::unmakeNullMove`: pop and restore hash and en-passant target. -/
def unmakeNullMove (b : Board) : Board :=
  match b.history with
  | [] => b
  | st :: h =>
    { b with
      history := h
      hashKey := st.hashKey
      enPassantTargetSquare := st.enPassantTargetSquare }

/-- `Board::getAllLegalMoves`: scan the squares in row-major order, emit the
pseudo-legal moves of each own piece, trial-apply each with `makeMove`, keep
it when the own king is not left in check, and always `unmakeMove`. The
board is threaded through the fold exactly as the single mutable object is
in the source; the second component is the board object as the loop leaves
it. -/
def getAllLegalMoves (Z : Zobrist) (b : Board) (playerColor : Color) :
    List Move × Board :=
  (List.range 8).foldl (fun acc r =>
    (List.range 8).foldl (fun acc2 c =>
      match getPiece acc2.2 ⟨(r : Int), (c : Int)⟩ with
      | none => acc2
      | some q =>
        if q.color = playerColor then
          (getValidMoves q ⟨(r : Int), (c : Int)⟩ acc2.2).foldl
            (fun (a : List Move × Board) mv =>
              let b1 := makeMove Z a.2 mv
              let keep := !isKingInCheck b1 playerColor
              let b2 := unmakeMove b1
              ((if keep then a.1 ++ [mv] else a.1), b2)) acc2
        else acc2) acc) ([], b)

inductive TTFlag where
  | EXACT
  | LOWERBOUND
  | UPPERBOUND
deriving DecidableEq

open TTFlag

/-- `struct TTEntry` with its in-class initializers. -/
structure TTEntry where
  key : Nat := 0
  depth : Int := 0
  score : Rat := 0
  flag : TTFlag := EXACT
  bestMove : Move := { fromSq := ⟨-1, -1⟩, toSq := ⟨-1, -1⟩ }
deriving DecidableEq

/-- The `TranspositionTable`: a fixed number of slots indexed by
`key % size`. The slot vector is modelled as a function from indices to
entries; the constructor computation of `size` from a megabyte budget and
`sizeof(TTEntry)` is implementation-defined in the source, so `size` is
taken as given. -/
structure TranspositionTable where
  size : Nat
  table : Nat → TTEntry

/-- A fresh table of the given capacity, all slots default (key 0). -/
def TranspositionTable.empty (n : Nat) : TranspositionTable :=
  { size := n, table := fun _ => {} }

/-- `TranspositionTable::store`: single-slot replacement, overwrite iff the
slot is empty (key 0) or the new depth is at least the stored depth. -/
def TranspositionTable.store (tt : TranspositionTable) (key : Nat) (depth : Int)
    (score : Rat) (flag : TTFlag) (bestMove : Move) : TranspositionTable :=
  let index := key % tt.size
  if (tt.table index).key = 0 ∨ depth ≥ (tt.table index).depth then
    { tt with table := fun i =>
        if i = index then
          { key := key, depth := depth, score := score, flag := flag, bestMove := bestMove }
        else tt.table i }
  else tt

/-- `TranspositionTable::probe`: return the stored payload iff the slot key
matches and the stored depth is at least the requested depth. -/
def TranspositionTable.probe (tt : TranspositionTable) (key : Nat) (depth : Int) :
    Option (Rat × TTFlag × Move) :=
  let index := key % tt.size
  let e := tt.table index
  if e.key = key ∧ e.depth ≥ depth then some (e.score, e.flag, e.bestMove) else none

/-- `Engine::cpVal`: centipawn values indexed by piece kind. -/
def cpVal (t : PieceType) : Int :=
  match t with
  | PAWN => 100
  | KNIGHT => 320
  | BISHOP => 330
  | ROOK => 500
  | QUEEN => 900
  | KING => 20000

/-- Whether an optional piece is a pawn (`p && p->type() == PT_PAWN`). -/
def isPawnOpt (o : Option Piece) : Bool :=
  match o with
  | some q => q.kind = PAWN
  | none => false

/-- The scored-move list built by the loop in `Engine::orderMoves`: each
move gets `promoBonus + victim*100 - attacker` (en passant counted as a pawn
capture) plus 5000 when the probe `make`; opponent-in-check; `unmake` on the
scratch board succeeds. The scratch board (a copy with an empty undo stack,
as produced by the `Board` copy constructor) is threaded through the fold
exactly as `tempBoard` is mutated in the source. -/
def moveScoreAux (Z : Zobrist) (b : Board) (opponentColor : Color) :
    List Move → Board → List (Int × Move)
  | [], _ => []
  | m :: rest, tempBoard =>
    let att := getPiece b m.fromSq
    let vic := getPiece b m.toSq
    let attv : Int := match att with | some q => cpVal q.kind | none => 0
    let vicv : Int :=
      match vic with
      | some q => cpVal q.kind
      | none =>
        if isPawnOpt att = true ∧ m.toSq = getEnPassantTarget b then cpVal PAWN
        else 0
    let promoBonus : Int := if m.promotionPiece ≠ none then 10000 else 0
    let base := promoBonus + vicv * 100 - attv
    let b1 := makeMove Z tempBoard m
    let score := if isKingInCheck b1 opponentColor then base + 5000 else base
    let b2 := unmakeMove b1
    (score, m) :: moveScoreAux Z b opponentColor rest b2

def moveScoreList (Z : Zobrist) (b : Board) (playerColor : Color)
    (moves : List Move) : List (Int × Move) :=
  moveScoreAux Z b (opposite playerColor) moves { b with history := [] }

/-- The descending comparison `a.first >= b.first` under which Mathlib's
stable insertion sort coincides with the `std::stable_sort` call on the
strict comparator `a.first > b.first`. -/
def scoreGE (x y : Int × Move) : Prop := y.1 ≤ x.1

instance : DecidableRel scoreGE := fun x y => inferInstanceAs (Decidable (y.1 ≤ x.1))

instance : IsTotal (Int × Move) scoreGE := ⟨fun x y => le_total y.1 x.1⟩

instance : IsTrans (Int × Move) scoreGE := ⟨fun _ _ _ h1 h2 => le_trans h2 h1⟩

/-- `Engine::orderMoves`: score every move and stably sort in descending
score order. With no moves, or when the lead move names an empty or
colorless square (the first is a null dereference in the source), the list
is returned unchanged. -/
def orderMoves (Z : Zobrist) (b : Board) (moves : List Move) : List Move :=
  match moves with
  | [] => moves
  | m0 :: _ =>
    match getPiece b m0.fromSq with
    | none => moves
    | some q =>
      if q.color = NONE then moves
      else (List.insertionSort scoreGE (moveScoreList Z b q.color moves)).map Prod.snd

/-- `Engine::forcingMovesOnly`: keep captures (normal or en passant) and
moves whose trial application puts the opponent in check. The board is
threaded as the mutable `currentBoard` is. -/
def forcingMovesOnly (Z : Zobrist) (playerColor : Color) (b : Board)
    (validMoves : List Move) : List Move × Board :=
  let opponentColor := opposite playerColor
  validMoves.foldl (fun (acc : List Move × Board) m =>
    let isCapture : Prop :=
      (getPiece acc.2 m.toSq).isSome = true ∨
      (isPawnOpt (getPiece acc.2 m.fromSq) = true ∧ m.toSq = getEnPassantTarget acc.2)
    if isCapture then (acc.1 ++ [m], acc.2)
    else
      let b1 := makeMove Z acc.2 m
      let gives := isKingInCheck b1 opponentColor
      let b2 := unmakeMove b1
      ((if gives then acc.1 ++ [m] else acc.1), b2)) ([], b)

def pawnValue : Rat := 1.0
def knightValue : Rat := 3.2
def bishopValue : Rat := 3.3
def rookValue : Rat := 5.0
def queenValue : Rat := 9.0
def kingValue : Rat := 200.0
def doubledPawnPenalty : Rat := -0.15
def isolatedPawnPenalty : Rat := -0.10

def passedPawnBonus : List Rat := [0.0, 0.2, 0.4, 0.75, 1.25, 2.0, 3.0, 4.5]

def pawnPhase : Int := 1
def knightPhase : Int := 1
def bishopPhase : Int := 1
def rookPhase : Int := 2
def queenPhase : Int := 4

def totalPhase : Int :=
  16 * pawnPhase + 4 * knightPhase + 4 * bishopPhase + 4 * rookPhase + 2 * queenPhase

def tableAt (t : List (List Rat)) (r c : Nat) : Rat := (t.getD r []).getD c 0

def pawnTable : List (List Rat) :=
  [[0.0, 0.0, 0.0, 0.0, 0.0, 0.0, 0.0, 0.0],
   [0.8, 0.8, 0.8, 0.8, 0.8, 0.8, 0.8, 0.8],
   [0.3, 0.3, 0.4, 0.5, 0.5, 0.4, 0.3, 0.3],
   [0.2, 0.2, 0.3, 0.55, 0.55, 0.3, 0.2, 0.2],
   [0.1, 0.1, 0.2, 0.5, 0.5, 0.2, 0.1, 0.1],
   [0.05, 0.0, 0.0, 0.05, 0.05, 0.0, 0.0, 0.05],
   [0.0, 0.0, 0.0, -0.2, -0.2, 0.0, 0.0, 0.0],
   [0.0, 0.0, 0.0, 0.0, 0.0, 0.0, 0.0, 0.0]]

def knightTable : List (List Rat) :=
  [[-0.5, -0.4, -0.3, -0.3, -0.3, -0.3, -0.4, -0.5],
   [-0.4, -0.2, 0.0, 0.0, 0.0, 0.0, -0.2, -0.4],
   [-0.3, 0.0, 0.15, 0.15, 0.15, 0.15, 0.0, -0.3],
   [-0.3, 0.05, 0.15, 0.25, 0.25, 0.15, 0.05, -0.3],
   [-0.3, 0.0, 0.15, 0.25, 0.25, 0.15, 0.0, -0.3],
   [-0.3, 0.05, 0.15, 0.15, 0.15, 0.15, 0.05, -0.3],
   [-0.4, -0.2, 0.0, 0.05, 0.05, 0.0, -0.2, -0.4],
   [-0.5, -0.4, -0.3, -0.3, -0.3, -0.3, -0.4, -0.5]]

def bishopTable : List (List Rat) :=
  [[-0.2, -0.1, -0.1, -0.1, -0.1, -0.1, -0.1, -0.2],
   [-0.1, 0.0, 0.0, 0.0, 0.0, 0.0, 0.0, -0.1],
   [-0.1, 0.0, 0.05, 0.1, 0.1, 0.05, 0.0, -0.1],
   [-0.1, 0.05, 0.05, 0.1, 0.1, 0.05, 0.05, -0.1],
   [-0.1, 0.0, 0.1, 0.1, 0.1, 0.1, 0.0, -0.1],
   [-0.1, 0.1, 0.1, 0.1, 0.1, 0.1, 0.1, -0.1],
   [-0.1, 0.05, 0.0, 0.0, 0.0, 0.0, 0.05, -0.1],
   [-0.2, -0.1, -0.1, -0.1, -0.1, -0.1, -0.1, -0.2]]

def rookTable : List (List Rat) :=
  [[0.0, 0.0, 0.0, 0.0, 0.0, 0.0, 0.0, 0.0],
   [0.05, 0.1, 0.1, 0.1, 0.1, 0.1, 0.1, 0.05],
   [-0.05, 0.0, 0.0, 0.0, 0.0, 0.0, 0.0, -0.05],
   [-0.05, 0.0, 0.0, 0.0, 0.0, 0.0, 0.0, -0.05],
   [-0.05, 0.0, 0.0, 0.0, 0.0, 0.0, 0.0, -0.05],
   [-0.05, 0.0, 0.0, 0.0, 0.0, 0.0, 0.0, -0.05],
   [-0.05, 0.0, 0.0, 0.0, 0.0, 0.0, 0.0, -0.05],
   [0.0, 0.0, 0.0, 0.05, 0.05, 0.0, 0.0, 0.0]]

def kingTableMidgame : List (List Rat) :=
  [[-0.3, -0.4, -0.4, -0.5, -0.5, -0.4, -0.4, -0.3],
   [-0.3, -0.4, -0.4, -0.5, -0.5, -0.4, -0.4, -0.3],
   [-0.3, -0.4, -0.4, -0.5, -0.5, -0.4, -0.4, -0.3],
   [-0.3, -0.4, -0.4, -0.5, -0.5, -0.4, -0.4, -0.3],
   [-0.2, -0.3, -0.3, -0.4, -0.4, -0.3, -0.3, -0.2],
   [-0.1, -0.2, -0.2, -0.2, -0.2, -0.2, -0.2, -0.1],
   [0.2, 0.2, 0.0, 0.0, 0.0, 0.0, 0.2, 0.2],
   [0.2, 0.3, 0.1, 0.0, 0.0, 0.1, 0.3, 0.2]]

def kingTableEndgame : List (List Rat) :=
  [[-0.5, -0.4, -0.3, -0.2, -0.2, -0.3, -0.4, -0.5],
   [-0.3, -0.2, -0.1, 0.0, 0.0, -0.1, -0.2, -0.3],
   [-0.3, -0.1, 0.2, 0.3, 0.3, 0.2, -0.1, -0.3],
   [-0.3, -0.1, 0.3, 0.4, 0.4, 0.3, -0.1, -0.3],
   [-0.3, -0.1, 0.3, 0.4, 0.4, 0.3, -0.1, -0.3],
   [-0.3, -0.1, 0.2, 0.3, 0.3, 0.2, -0.1, -0.3],
   [-0.3, -0.3, 0.0, 0.0, 0.0, 0.0, -0.3, -0.3],
   [-0.5, -0.3, -0.3, -0.3, -0.3, -0.3, -0.3, -0.5]]

/-- `Engine::mobilityBonus`: small per-move bonus for minor and major
pieces, nothing for pawns and kings. -/
def mobilityBonus (q : Piece) (pos : Position) (b : Board) : Rat :=
  match q.kind with
  | ROOK => ((getValidMoves q pos b).length : Rat) * 0.01
  | QUEEN => ((getValidMoves q pos b).length : Rat) * 0.01
  | KNIGHT => ((getValidMoves q pos b).length : Rat) * 0.03
  | BISHOP => ((getValidMoves q pos b).length : Rat) * 0.02
  | _ => 0.0

/-- The files `max(0, kc-1) .. min(7, kc+1)` scanned by the king-safety
loops, in ascending order. -/
def nearCols (kc : Int) : List Int :=
  ((List.range 8).map fun n => (n : Int)).filter fun cc => kc - 1 ≤ cc ∧ cc ≤ kc + 1

/-- `Engine::evaluateKingSafety`: pawn-shield term (middlegame only) and a
penalty per open file among the three files around the king, signed
White-positive. -/
def evaluateKingSafety (b : Board) (kingColor : Color) (phaseFactor : Rat) : Rat :=
  let kingPos := findKing b kingColor
  if kingPos.row = -1 then 0.0
  else
    let s1 :=
      if phaseFactor > 0.3 then
        let pawnShieldRow : Int := if kingColor = WHITE then kingPos.row - 1
          else kingPos.row + 1
        let shieldBonus := (nearCols kingPos.col).foldl (fun acc col =>
          match getPiece b ⟨pawnShieldRow, col⟩ with
          | some q => if q.kind = PAWN ∧ q.color = kingColor then acc + 0.1 else acc - 0.15
          | none => acc - 0.15) 0.0
        shieldBonus * phaseFactor
      else 0.0
    let s2 := (nearCols kingPos.col).foldl (fun acc col =>
      let openFile := (List.range 8).all fun row =>
        match getPiece b ⟨(row : Int), col⟩ with
        | some q => q.kind ≠ PAWN
        | none => true
      if openFile then acc - 0.2 * phaseFactor else acc) 0.0
    let safetyScore := s1 + s2
    if kingColor = WHITE then safetyScore else -safetyScore

/-- `Engine::evaluatePieceCoordination`: 0.05 per ordered pair of distinct
non-pawn non-king pieces of the color where the second is attacked by that
color, signed White-positive. -/
def evaluatePieceCoordination (b : Board) (c : Color) : Rat :=
  let pieces := (List.range 8).foldl (fun acc r =>
    (List.range 8).foldl (fun a cc =>
      match getPiece b ⟨(r : Int), (cc : Int)⟩ with
      | some q => if q.color = c ∧ q.kind ≠ PAWN ∧ q.kind ≠ KING then
          a ++ [(⟨(r : Int), (cc : Int)⟩ : Position)] else a
      | none => a) acc) []
  let coordination := pieces.foldl (fun acc pos =>
    pieces.foldl (fun a otherPos =>
      if pos = otherPos then a
      else if isSquareAttackedBy b otherPos c then a + 0.05 else a) acc) 0.0
  if c = WHITE then coordination else -coordination

/-- `Engine::getPieceValue`: base material value plus piece-square table,
the table mirrored vertically for Black; the king blends midgame and
endgame tables by `gamePhase / totalPhase` (unclamped, as in the source). -/
def getPieceValue (q : Piece) (r c : Nat) (gamePhase : Int) : Rat :=
  match q.kind with
  | PAWN => pawnValue +
      (if q.color = WHITE then tableAt pawnTable r c else tableAt pawnTable (7 - r) c)
  | KNIGHT => knightValue +
      (if q.color = WHITE then tableAt knightTable r c else tableAt knightTable (7 - r) c)
  | BISHOP => bishopValue +
      (if q.color = WHITE then tableAt bishopTable r c else tableAt bishopTable (7 - r) c)
  | ROOK => rookValue +
      (if q.color = WHITE then tableAt rookTable r c else tableAt rookTable (7 - r) c)
  | QUEEN => queenValue
  | KING =>
    let mg := if q.color = WHITE then tableAt kingTableMidgame r c
      else tableAt kingTableMidgame (7 - r) c
    let eg := if q.color = WHITE then tableAt kingTableEndgame r c
      else tableAt kingTableEndgame (7 - r) c
    let phaseRatio : Rat := (gamePhase : Rat) / (totalPhase : Rat)
    kingValue + (mg * phaseRatio + eg * (1 - phaseRatio))

/-- `Engine::verifySquareColor`. -/
def verifySquareColor (pos : Position) : Color :=
  if (pos.row + pos.col) % 2 = 0 then WHITE else BLACK

/-- Number of empty squares along one ray before a blocker or the edge
(the inline rook-mobility loop of `evaluatePosition`). -/
def emptyRay (b : Board) (dR dC : Int) : Nat → Position → Nat
  | 0, _ => 0
  | n + 1, cur =>
    let nxt : Position := ⟨cur.row + dR, cur.col + dC⟩
    if isValidPosition nxt then
      if (getPiece b nxt).isSome then 0 else 1 + emptyRay b dR dC n nxt
    else 0

/-- Number of pawns of a color on a file (the `PawnsPerFile` arrays). -/
def pawnsInFile (b : Board) (c : Color) (file : Nat) : Nat :=
  (List.range 8).foldl (fun acc r =>
    match getPiece b ⟨(r : Int), (file : Int)⟩ with
    | some q => if q.color = c ∧ q.kind = PAWN then acc + 1 else acc
    | none => acc) 0

/-- Number of pieces of a color and kind on the board (the bishop and
knight counters of the main scan). -/
def countPieces (b : Board) (c : Color) (k : PieceType) : Nat :=
  (List.range 8).foldl (fun acc r =>
    (List.range 8).foldl (fun a cc =>
      match getPiece b ⟨(r : Int), (cc : Int)⟩ with
      | some q => if q.color = c ∧ q.kind = k then a + 1 else a
      | none => a) acc) 0

/-- `true` when the piece on the square is absent or not of the kind
(`getPiece(sq) == nullptr || getPiece(sq)->type() != k`). -/
def notKindAt (b : Board) (pos : Position) (k : PieceType) : Bool :=
  match getPiece b pos with
  | some q => q.kind ≠ k
  | none => true

/-- The game-phase total of `evaluatePosition`: per-kind phase weights over
every piece on the board, kings contributing nothing. -/
def gamePhaseOf (b : Board) : Int :=
  (List.range 8).foldl (fun acc r =>
    (List.range 8).foldl (fun a cc =>
      match getPiece b ⟨(r : Int), (cc : Int)⟩ with
      | some q =>
        match q.kind with
        | PAWN => a + pawnPhase
        | KNIGHT => a + knightPhase
        | BISHOP => a + bishopPhase
        | ROOK => a + rookPhase
        | QUEEN => a + queenPhase
        | KING => a
      | none => a) acc) 0

/-- The development-bonus block of `evaluatePosition`: small signed bonuses
when minors have left their home squares, scaled by the phase factor. -/
def developmentBonus (b : Board) (phaseFactor : Rat) : Rat :=
  (if notKindAt b ⟨7, 1⟩ KNIGHT then 0.05 * phaseFactor else 0) +
  (if notKindAt b ⟨7, 6⟩ KNIGHT then 0.05 * phaseFactor else 0) +
  (if notKindAt b ⟨0, 1⟩ KNIGHT then -(0.05 * phaseFactor) else 0) +
  (if notKindAt b ⟨0, 6⟩ KNIGHT then -(0.05 * phaseFactor) else 0) +
  (if notKindAt b ⟨7, 2⟩ BISHOP then 0.04 * phaseFactor else 0) +
  (if notKindAt b ⟨7, 5⟩ BISHOP then 0.04 * phaseFactor else 0) +
  (if notKindAt b ⟨0, 2⟩ BISHOP then -(0.04 * phaseFactor) else 0) +
  (if notKindAt b ⟨0, 5⟩ BISHOP then -(0.04 * phaseFactor) else 0)

/-- The per-piece contribution of the main scan of `evaluatePosition`:
inline rook mobility, bishop blocked by same-color central pawns, the
generic mobility bonus, and the signed piece value. -/
def pieceScanScore (b : Board) (gamePhase : Int) (r c : Nat) : Rat :=
  match getPiece b ⟨(r : Int), (c : Int)⟩ with
  | none => 0
  | some q =>
    let rookMob : Rat :=
      if q.kind = ROOK then
        let cnt := emptyRay b (-1) 0 8 ⟨(r : Int), (c : Int)⟩ +
          emptyRay b 1 0 8 ⟨(r : Int), (c : Int)⟩ +
          emptyRay b 0 (-1) 8 ⟨(r : Int), (c : Int)⟩ +
          emptyRay b 0 1 8 ⟨(r : Int), (c : Int)⟩
        let bonus := (cnt : Rat) * 0.05
        if q.color = WHITE then bonus else -bonus
      else 0
    let bishopBlock : Rat :=
      if q.kind = BISHOP then
        let bsc := verifySquareColor ⟨(r : Int), (c : Int)⟩
        let obstructing := [((3 : Int), (3 : Int)), (3, 4), (4, 3), (4, 4)].foldl
          (fun acc sq =>
            match getPiece b ⟨sq.1, sq.2⟩ with
            | some p => if p.kind = PAWN ∧ p.color = q.color ∧
                verifySquareColor ⟨sq.1, sq.2⟩ = bsc then acc + 1 else acc
            | none => acc) (0 : Nat)
        let penalty : Rat :=
          if obstructing ≥ 3 then 0.9
          else if obstructing = 2 then 0.5
          else if obstructing = 1 then 0.2
          else 0.0
        if q.color = WHITE then -penalty else penalty
      else 0
    let mob : Rat :=
      if q.kind ≠ PAWN ∧ q.kind ≠ KING then
        let bonus := mobilityBonus q ⟨(r : Int), (c : Int)⟩ b
        if q.color = WHITE then bonus else -bonus
      else 0
    let value := getPieceValue q r c gamePhase
    rookMob + bishopBlock + mob + (if q.color = WHITE then value else -value)

/-- The center-control block of `evaluatePosition` over d4, d5, e4, e5:
occupancy bonus by piece kind plus 0.05 per attack by each side. -/
def centerControl (b : Board) : Rat :=
  [((3 : Int), (3 : Int)), (3, 4), (4, 3), (4, 4)].foldl (fun acc sq =>
    let occ : Rat :=
      match getPiece b ⟨sq.1, sq.2⟩ with
      | some q =>
        let bonus : Rat := if q.kind = PAWN then 0.3
          else if q.kind = KNIGHT then 0.25 else 0.2
        if q.color = WHITE then bonus else -bonus
      | none => 0
    let att : Rat :=
      (if isSquareAttackedBy b ⟨sq.1, sq.2⟩ WHITE then 0.05 else 0) +
      (if isSquareAttackedBy b ⟨sq.1, sq.2⟩ BLACK then -(0.05 : Rat) else 0)
    acc + occ + att) 0.0

/-- The per-file pawn-structure score of `evaluatePosition`: doubled and
isolated pawn terms, signed White-positive. -/
def pawnStructureScore (b : Board) : Rat :=
  (List.range 8).foldl (fun acc c =>
    let wc := pawnsInFile b WHITE c
    let bc := pawnsInFile b BLACK c
    let s1 := if wc > 1 then ((wc : Rat) - 1) * doubledPawnPenalty else 0
    let s2 := if bc > 1 then -(((bc : Rat) - 1) * doubledPawnPenalty) else 0
    let leftEmptyW := c = 0 ∨ pawnsInFile b WHITE (c - 1) = 0
    let rightEmptyW := c = 7 ∨ pawnsInFile b WHITE (c + 1) = 0
    let s3 := if wc > 0 ∧ leftEmptyW ∧ rightEmptyW then isolatedPawnPenalty else 0
    let leftEmptyB := c = 0 ∨ pawnsInFile b BLACK (c - 1) = 0
    let rightEmptyB := c = 7 ∨ pawnsInFile b BLACK (c + 1) = 0
    let s4 := if bc > 0 ∧ leftEmptyB ∧ rightEmptyB then -isolatedPawnPenalty else 0
    acc + s1 + s2 + s3 + s4) 0.0

/-- Whether the square `(row, file)` holds a pawn of the given color. -/
def isPawnOf (b : Board) (c : Color) (row file : Nat) : Bool :=
  match getPiece b ⟨(row : Int), (file : Int)⟩ with
  | some q => q.color = c && q.kind = PAWN
  | none => false

/-- Whether an enemy pawn of `enemy` blocks the pawn on `(r, c)` on its own
or an adjacent file, strictly ahead in the scan direction of the source. -/
def pawnBlockedAhead (b : Board) (enemy : Color) (c : Nat) (ahead : Nat → Prop)
    [DecidablePred ahead] : Bool :=
  (List.range 8).any fun row =>
    decide (ahead row) &&
    ((c > 0 && isPawnOf b enemy row (c - 1)) ||
     isPawnOf b enemy row c ||
     (c < 7 && isPawnOf b enemy row (c + 1)))

/-- The passed-pawn block of `evaluatePosition`. -/
def passedPawnScore (b : Board) : Rat :=
  (List.range 8).foldl (fun acc (r : Nat) =>
    (List.range 8).foldl (fun a (c : Nat) =>
      match getPiece b ⟨(r : Int), (c : Int)⟩ with
      | some q =>
        if q.kind = PAWN then
          if q.color = WHITE then
            if pawnBlockedAhead b BLACK c (fun row => row < r) then a
            else a + passedPawnBonus.getD (7 - r) 0
          else
            if pawnBlockedAhead b WHITE c (fun row => r < row) then a
            else a - passedPawnBonus.getD r 0
        else a
      | none => a) acc) 0.0

/-- The White-positive score accumulated by `Engine::evaluatePosition`
before the final perspective flip. The player color parameter of the
source is not used anywhere in this accumulation. -/
def evalScore (b : Board) : Rat :=
  let gamePhase := gamePhaseOf b
  let phaseFactor : Rat := min 1 ((gamePhase : Rat) / (totalPhase : Rat))
  let dev := developmentBonus b phaseFactor
  let main := (List.range 8).foldl (fun acc r =>
    (List.range 8).foldl (fun a c => a + pieceScanScore b gamePhase r c) acc) 0.0
  let whiteBishops := countPieces b WHITE BISHOP
  let blackBishops := countPieces b BLACK BISHOP
  let whiteKnights := countPieces b WHITE KNIGHT
  let blackKnights := countPieces b BLACK KNIGHT
  let pairs :=
    (if whiteBishops ≥ 2 then 0.05 * (1 - phaseFactor) else 0) +
    (if blackBishops ≥ 2 then -(0.05 * (1 - phaseFactor)) else 0) +
    (if whiteKnights ≥ 2 then 0.02 * phaseFactor else 0) +
    (if blackKnights ≥ 2 then -(0.02 * phaseFactor) else 0)
  dev + main + pairs + centerControl b * phaseFactor + pawnStructureScore b +
    passedPawnScore b +
    evaluateKingSafety b WHITE phaseFactor + evaluateKingSafety b BLACK phaseFactor +
    evaluatePieceCoordination b WHITE + evaluatePieceCoordination b BLACK

/-- `Engine::evaluatePosition`: the White-positive score, negated at the
very end when the requested perspective is not White. -/
def evaluatePosition (b : Board) (playerColor : Color) : Rat :=
  if playerColor = WHITE then evalScore b else -evalScore b

/-- The forcing-move loop of `Engine::quiescenceSearch`, with the recursive
call abstracted as `qs` (the quiescence search at the next fuel level). -/
def qsLoop (qs : Rat → Rat → Color → Board → Rat) (Z : Zobrist) (playerColor : Color)
    (beta : Rat) : List Move → Rat → Board → Rat
  | [], alpha, _ => alpha
  | m :: rest, alpha, b =>
    let b1 := makeMove Z b m
    let score := -qs (-beta) (-alpha) (opposite playerColor) b1
    let b2 := unmakeMove b1
    if score ≥ beta then beta
    else qsLoop qs Z playerColor beta rest (if score > alpha then score else alpha) b2

/-- `Engine::quiescenceSearch` with explicit fuel (the source recursion is
bounded only by the finiteness of forcing sequences). Exhausted fuel
returns the current alpha. -/
def quiescenceSearch (Z : Zobrist) : Nat → Rat → Rat → Color → Board → Rat
  | 0, alpha, _, _, _ => alpha
  | fuel + 1, alpha, beta, playerColor, b =>
    let standPat := evaluatePosition b playerColor
    if standPat ≥ beta then beta
    else
      let alpha1 := if alpha < standPat then standPat else alpha
      let vm := getAllLegalMoves Z b playerColor
      let fm := forcingMovesOnly Z playerColor vm.2 vm.1
      let ordered := orderMoves Z fm.2 fm.1
      qsLoop (quiescenceSearch Z fuel) Z playerColor beta ordered alpha1 fm.2

/-- The move loop of `Engine::minimax` (first move full window, later moves
null-window with re-search, beta cutoff with LOWERBOUND store, final store
of alpha with EXACT or UPPERBOUND), with the recursive search abstracted as
`search`. -/
def minimaxLoop (Z : Zobrist) (search : Int → Color → Rat → Rat → Board →
      TranspositionTable → Rat × TranspositionTable)
    (key : Nat) (depth : Int) (playerColor : Color) (beta : Rat) :
    List Move → Rat → Move → TTFlag → Bool → Board → TranspositionTable →
    Rat × TranspositionTable
  | [], alpha, bestMove, flag, _, _, tt => (alpha, tt.store key depth alpha flag bestMove)
  | m :: rest, alpha, bestMove, flag, isFirstMove, b, tt =>
    let b1 := makeMove Z b m
    let et :=
      if isFirstMove then
        let st := search (depth - 1) (opposite playerColor) (-beta) (-alpha) b1 tt
        (-st.1, st.2)
      else
        let st := search (depth - 1) (opposite playerColor) (-alpha - 1) (-alpha) b1 tt
        let ev := -st.1
        if ev > alpha ∧ ev < beta then
          let st2 := search (depth - 1) (opposite playerColor) (-beta) (-alpha) b1 st.2
          (-st2.1, st2.2)
        else (ev, st.2)
    let b2 := unmakeMove b1
    if et.1 ≥ beta then (beta, et.2.store key depth beta LOWERBOUND m)
    else if et.1 > alpha then
      minimaxLoop Z search key depth playerColor beta rest et.1 m EXACT false b2 et.2
    else
      minimaxLoop Z search key depth playerColor beta rest alpha bestMove flag false b2 et.2

/-- The continuation of `minimaxMoves` once the legal-move list has been
materialized (`b1` is the board object as the generation loop left it). -/
def minimaxMovesGo (Z : Zobrist) (search : Int → Color → Rat → Rat → Board →
      TranspositionTable → Rat × TranspositionTable)
    (key : Nat) (depth : Int) (playerColor : Color) (alpha beta : Rat)
    (b1 : Board) (tt : TranspositionTable) :
    List Move → Rat × TranspositionTable
  | [] =>
    if isKingInCheck b1 playerColor then ((-10000 : Rat) + ((5 - depth : Int) : Rat), tt)
    else (0, tt)
  | m0 :: rest =>
    let ordered := orderMoves Z b1 (m0 :: rest)
    minimaxLoop Z search key depth playerColor beta ordered alpha (ordered.headD m0)
      UPPERBOUND true b1 tt

/-- The terminal and move-search part of `Engine::minimax` after the
transposition-table probe and the null-move stage: generate legal moves,
return the mate or stalemate score on an empty list, otherwise order the
moves and run the alpha-beta loop. -/
def minimaxMoves (Z : Zobrist) (search : Int → Color → Rat → Rat → Board →
      TranspositionTable → Rat × TranspositionTable)
    (key : Nat) (depth : Int) (playerColor : Color) (alpha beta : Rat)
    (b : Board) (tt : TranspositionTable) : Rat × TranspositionTable :=
  let mg := getAllLegalMoves Z b playerColor
  minimaxMovesGo Z search key depth playerColor alpha beta mg.2 tt mg.1

/-- The body of `Engine::minimax` after the transposition-table probe:
depth-zero quiescence, then the null-move-pruning stage, then the move
search. `search` abstracts the recursive `minimax` at the next fuel level
and `qs` the quiescence search. -/
def minimaxCore (Z : Zobrist) (search : Int → Color → Rat → Rat → Board →
      TranspositionTable → Rat × TranspositionTable)
    (qs : Rat → Rat → Color → Board → Rat)
    (key : Nat) (depth : Int) (playerColor : Color) (alpha beta : Rat)
    (b : Board) (tt : TranspositionTable) : Rat × TranspositionTable :=
  if depth = 0 then (qs alpha beta playerColor b, tt)
  else if depth ≥ 3 ∧ isKingInCheck b playerColor = false then
    let b1 := makeNullMove Z b
    let st := search (depth - 3) (opposite playerColor) (-beta) (-beta + 1) b1 tt
    let nullScore := -st.1
    let b2 := unmakeNullMove b1
    if nullScore ≥ beta then (beta, st.2)
    else minimaxMoves Z search key depth playerColor alpha beta b2 st.2
  else minimaxMoves Z search key depth playerColor alpha beta b tt

/-- The probe dispatch at the top of `Engine::minimax`, applied to the
probe result: an EXACT hit returns the stored score, a LOWERBOUND hit at or
above beta returns beta, an UPPERBOUND hit at or below alpha returns alpha,
and any other outcome falls through to the main body. -/
def minimaxAfterProbe (Z : Zobrist) (search : Int → Color → Rat → Rat → Board →
      TranspositionTable → Rat × TranspositionTable)
    (qs : Rat → Rat → Color → Board → Rat)
    (key : Nat) (depth : Int) (playerColor : Color) (alpha beta : Rat)
    (b : Board) (tt : TranspositionTable) :
    Option (Rat × TTFlag × Move) → Rat × TranspositionTable
  | some sfm =>
    if sfm.2.1 = EXACT then (sfm.1, tt)
    else if sfm.2.1 = LOWERBOUND ∧ sfm.1 ≥ beta then (beta, tt)
    else if sfm.2.1 = UPPERBOUND ∧ sfm.1 ≤ alpha then (alpha, tt)
    else minimaxCore Z search qs key depth playerColor alpha beta b tt
  | none => minimaxCore Z search qs key depth playerColor alpha beta b tt

/-- `Engine::minimax` with explicit fuel: probe the table at the hash of
the current board and dispatch on the result. Exhausted fuel returns 0. -/
def minimax (Z : Zobrist) : Nat → Int → Color → Rat → Rat → Board →
    TranspositionTable → Rat × TranspositionTable
  | 0, _, _, _, _, _, tt => (0, tt)
  | fuel + 1, depth, playerColor, alpha, beta, b, tt =>
    let key := getHashKey b
    minimaxAfterProbe Z (minimax Z fuel) (quiescenceSearch Z fuel) key depth
      playerColor alpha beta b tt (tt.probe key depth)

/-- The sentinel move returned by `findBestMove` when the root has no legal
moves: both squares marked invalid. -/
def sentinelMove : Move := { fromSq := ⟨-1, -1⟩, toSq := ⟨-1, -1⟩ }

/-- The result-collection loop of one `findBestMove` iteration: keep the
move whose reported score strictly beats the best so far. -/
def rootPick (taskScore : Nat → Move → Rat) (d : Nat) :
    List Move → Rat × Move → Rat × Move
  | [], cur => cur
  | m :: rest, cur =>
    let v := taskScore (d + 1) m
    rootPick taskScore d rest (if v > cur.1 then (v, m) else cur)

/-- One iteration of the iterative-deepening loop of `findBestMove`:
reorder the surviving move list against the root board, then collect the
task results seeded with the previous best move and the -1e9 floor. -/
def rootDepthStep (Z : Zobrist) (rootBoard : Board) (taskScore : Nat → Move → Rat)
    (st : Move × List Move) (d : Nat) : Move × List Move :=
  let ordered := orderMoves Z rootBoard st.2
  let res := rootPick taskScore d ordered ((-1000000000 : Rat), st.1)
  (res.2, ordered)

/-- `Engine::findBestMove`. The iterative-deepening loop reorders the move
list each iteration and keeps the strictly best task result, seeded with
the previous best move and a floor of -1e9; the per-task score (the negated
recursive `minimax` on a private clone after making the root move) is
abstracted as `taskScore (depth, move)` because the tasks run concurrently
and share the unsynchronized transposition table. The root board is only
read (legal-move generation and ordering restore it through the threaded
fold); no root move is ever applied to it. The list continuation is split
out as `findBestMoveFrom` (`rootBoard` is the root board object, only read
from there on). -/
def findBestMoveFrom (Z : Zobrist) (rootBoard : Board) (taskScore : Nat → Move → Rat)
    (maxDepth : Nat) : List Move → Move
  | [] => sentinelMove
  | m0 :: rest =>
    ((List.range maxDepth).foldl (rootDepthStep Z rootBoard taskScore)
      (m0, m0 :: rest)).1

def findBestMove (Z : Zobrist) (b : Board) (playerColor : Color) (maxDepth : Nat)
    (taskScore : Nat → Move → Rat) : Move :=
  let mg := getAllLegalMoves Z b playerColor
  findBestMoveFrom Z mg.2 taskScore maxDepth mg.1

def emptyGrid : Grid := List.replicate 8 (List.replicate 8 (none : Option Piece))

/-- Build a grid from a placement list. -/
def placeAll (ps : List (Int × Int × Piece)) : Grid :=
  ps.foldl (fun g e => gridSet g e.1 e.2.1 (some e.2.2)) emptyGrid

/-- Fixture: White pawn on e2 with both kings, White to move. -/
def bPawn : Board :=
  { grid := placeAll [(6, 4, ⟨WHITE, PAWN⟩), (7, 4, ⟨WHITE, KING⟩), (0, 4, ⟨BLACK, KING⟩)] }

def mPawn : Move := { fromSq := ⟨6, 4⟩, toSq := ⟨4, 4⟩ }

/-- Fixture: White rook d8, Black rook on its home corner h8, both kings. -/
def bRookCap : Board :=
  { grid := placeAll [(0, 3, ⟨WHITE, ROOK⟩), (0, 7, ⟨BLACK, ROOK⟩),
      (7, 4, ⟨WHITE, KING⟩), (0, 4, ⟨BLACK, KING⟩)] }

/-- The capture of the h8 rook by the d8 rook. -/
def mRookCap : Move := { fromSq := ⟨0, 3⟩, toSq := ⟨0, 7⟩ }

/-- Fixture: Black king h8 checkmated by White queen g7 defended by the
White king on g6; Black to move. -/
def bMate : Board :=
  { grid := placeAll [(2, 6, ⟨WHITE, KING⟩), (1, 6, ⟨WHITE, QUEEN⟩),
      (0, 7, ⟨BLACK, KING⟩)]
    hashKey := 1 }

def ttE1 : TranspositionTable := TranspositionTable.empty 1

/-- Fixture: the two bare kings. -/
def bKK : Board :=
  { grid := placeAll [(7, 4, ⟨WHITE, KING⟩), (0, 4, ⟨BLACK, KING⟩)]
    hashKey := 1 }

/-- Fixture: a lone White king whose has-moved flag suppresses castling. -/
def bKW : Board :=
  { grid := placeAll [(7, 4, ⟨WHITE, KING⟩)], whiteKingMoved := true }

def taskScore0 : Nat → Move → Rat := fun _ _ => 0

/-- Fixture for move ordering: a quiet knight move and a pawn capture. -/
def bOrd : Board :=
  { grid := placeAll [(7, 1, ⟨WHITE, KNIGHT⟩), (3, 3, ⟨WHITE, PAWN⟩),
      (2, 4, ⟨BLACK, PAWN⟩), (7, 4, ⟨WHITE, KING⟩), (0, 4, ⟨BLACK, KING⟩)]
    hashKey := 7 }

/-- The quiet knight move b1a3 on `bOrd`. -/
def mOrdQuiet : Move := { fromSq := ⟨7, 1⟩, toSq := ⟨5, 0⟩ }

/-- The pawn capture d5xe6 on `bOrd`. -/
def mOrdCapture : Move := { fromSq := ⟨3, 3⟩, toSq := ⟨2, 4⟩ }

/-- A table whose slot for the hash of `bOrd` stores `mOrdQuiet` as the
best move of that position. -/
def ttOrd : TranspositionTable :=
  (TranspositionTable.empty 16).store 7 3 0 EXACT mOrdQuiet

def mvTT : Move := { fromSq := ⟨6, 0⟩, toSq := ⟨5, 0⟩ }

/-- Fixture: a board whose hash indexes slot 1 of a 4-slot table. -/
def bTT : Board := { grid := emptyGrid, hashKey := 5 }

def ttExact : TranspositionTable := (TranspositionTable.empty 4).store 5 2 17 EXACT mvTT

def ttLower : TranspositionTable :=
  (TranspositionTable.empty 4).store 5 2 17 LOWERBOUND mvTT

def ttUpper : TranspositionTable :=
  (TranspositionTable.empty 4).store 5 2 17 UPPERBOUND mvTT

theorem makeNull_unmakeNull (Z : Zobrist) (b : Board) :
    unmakeNullMove (makeNullMove Z b) = b := by
  simp [makeNullMove, unmakeNullMove]

theorem moveScoreAux_map_snd (Z : Zobrist) (b : Board) (oc : Color) :
    ∀ (ms : List Move) (tb : Board), (moveScoreAux Z b oc ms tb).map Prod.snd = ms := by
  intro ms
  induction ms with
  | nil => intro tb; rfl
  | cons m rest ih => intro tb; simp only [moveScoreAux, List.map_cons, ih]

theorem moveScoreList_map_snd (Z : Zobrist) (b : Board) (pc : Color) (ms : List Move) :
    (moveScoreList Z b pc ms).map Prod.snd = ms :=
  moveScoreAux_map_snd Z b (opposite pc) ms { b with history := [] }

theorem orderMoves_perm (Z : Zobrist) (b : Board) (moves : List Move) :
    (orderMoves Z b moves).Perm moves := by
  cases moves with
  | nil => simp [orderMoves]
  | cons m0 rest =>
    cases h : getPiece b m0.fromSq with
    | none => simp [orderMoves, h]
    | some q =>
      by_cases hc : q.color = NONE
      · simp [orderMoves, h, hc]
      · have h1 := (List.perm_insertionSort scoreGE
          (moveScoreList Z b q.color (m0 :: rest))).map Prod.snd
        rw [moveScoreList_map_snd] at h1
        simpa [orderMoves, h, hc] using h1

theorem rootPick_mem (ts : Nat → Move → Rat) (d : Nat) :
    ∀ (l : List Move) (init : Rat × Move),
      (rootPick ts d l init).2 = init.2 ∨ (rootPick ts d l init).2 ∈ l := by
  intro l
  induction l with
  | nil => intro init; exact Or.inl rfl
  | cons m rest ih =>
    intro init
    simp only [rootPick]
    rcases ih (if ts (d + 1) m > init.1 then (ts (d + 1) m, m) else init) with h | h
    · rw [h]
      by_cases hc : ts (d + 1) m > init.1
      · right; simp [hc]
      · left; simp [hc]
    · right; exact List.mem_cons_of_mem _ h

theorem rootFold_mem (Z : Zobrist) (rb : Board) (ts : Nat → Move → Rat)
    (M : List Move) :
    ∀ (ds : List Nat) (st : Move × List Move), st.1 ∈ M → st.2.Perm M →
      ((ds.foldl (rootDepthStep Z rb ts) st).1 ∈ M ∧
       ((ds.foldl (rootDepthStep Z rb ts) st).2).Perm M) := by
  intro ds
  induction ds with
  | nil => intro st h1 h2; exact ⟨h1, h2⟩
  | cons d ds ih =>
    intro st h1 h2
    simp only [List.foldl_cons]
    apply ih
    · simp only [rootDepthStep]
      rcases rootPick_mem ts d (orderMoves Z rb st.2)
        ((-1000000000 : Rat), st.1) with h | h
      · rw [h]; exact h1
      · exact ((orderMoves_perm Z rb st.2).trans h2).subset h
    · simp only [rootDepthStep]
      exact (orderMoves_perm Z rb st.2).trans h2

/-- C1: for every board and every move whose from-square is occupied (in
particular every legal move, including castling, en passant and promotion),
`makeMove` pushes an undo record carrying the prior hash and `unmakeMove`
restores the hash by assignment, so the hash after make-then-unmake equals
the hash before, exactly. -/
theorem hash_restored_by_unmake (Z : Zobrist) (b : Board) (m : Move)
    (h : (getPiece b m.fromSq).isSome = true) :
    getHashKey (unmakeMove (makeMove Z b m)) = getHashKey b := by
  obtain ⟨p, hp⟩ := Option.isSome_iff_exists.mp h
  simp [makeMove, hp, unmakeMove, getHashKey]

theorem hash_restored_by_unmake_witness :
    (getPiece bPawn mPawn.fromSq).isSome = true ∧
    getHashKey (unmakeMove (makeMove zob0 bPawn mPawn)) = getHashKey bPawn :=
  ⟨rfl, hash_restored_by_unmake zob0 bPawn mPawn rfl⟩

/-- C2 evaluation: on `bRookCap` the Black rook stands on its home corner
h8 and is captured by the White rook from d8; after `makeMove` the
`blackRookHMoved` flag is still false and Black still has the king-side
castling right, because the source only inspects the from-square of the
move (lines 584 to 587) and never the to-square. -/
theorem rook_capture_keeps_castling_right :
    getPiece bRookCap ⟨0, 7⟩ = some ⟨BLACK, ROOK⟩ ∧
    (makeMove zob0 bRookCap mRookCap).blackRookHMoved = false ∧
    canBlackCastleKingside (makeMove zob0 bRookCap mRookCap) = true ∧
    getPiece (makeMove zob0 bRookCap mRookCap) ⟨0, 7⟩ = some ⟨WHITE, ROOK⟩ :=
  ⟨rfl, rfl, rfl, rfl⟩

/-- C3: with no legal root move `findBestMove` returns the sentinel move
(both squares row and col -1) without touching the board, and with at least
one legal move it returns a move drawn from the legal-move list, for every
assignment of task scores. -/
theorem findBestMove_sentinel_or_member (Z : Zobrist) (b : Board) (c : Color)
    (maxDepth : Nat) (ts : Nat → Move → Rat) :
    ((getAllLegalMoves Z b c).1 = [] →
      findBestMove Z b c maxDepth ts = sentinelMove) ∧
    ((getAllLegalMoves Z b c).1 ≠ [] →
      findBestMove Z b c maxDepth ts ∈ (getAllLegalMoves Z b c).1) := by
  have hfb : findBestMove Z b c maxDepth ts =
      findBestMoveFrom Z (getAllLegalMoves Z b c).2 ts maxDepth
        (getAllLegalMoves Z b c).1 := rfl
  constructor
  · intro h
    rw [hfb, h]
    rfl
  · intro h
    cases hm : (getAllLegalMoves Z b c).1 with
    | nil => exact absurd hm h
    | cons m0 rest =>
      have hmem := (rootFold_mem Z (getAllLegalMoves Z b c).2 ts (m0 :: rest)
        (List.range maxDepth) (m0, m0 :: rest)
        (List.mem_cons_self m0 rest) (List.Perm.refl _)).1
      rw [hfb, hm]
      exact hmem

theorem findBestMove_sentinel_or_member_witness :
    ((getAllLegalMoves zob0 bKW BLACK).1 = [] ∧
      findBestMove zob0 bKW BLACK 1 taskScore0 = sentinelMove) ∧
    ((getAllLegalMoves zob0 bKW WHITE).1 ≠ [] ∧
      findBestMove zob0 bKW WHITE 1 taskScore0 ∈ (getAllLegalMoves zob0 bKW WHITE).1) :=
  ⟨⟨rfl, (findBestMove_sentinel_or_member zob0 bKW BLACK 1 taskScore0).1 rfl⟩,
   ⟨of_decide_eq_true rfl,
    (findBestMove_sentinel_or_member zob0 bKW WHITE 1 taskScore0).2 (of_decide_eq_true rfl)⟩⟩

theorem mem_ite_singleton {α : Type} (x y : α) (P : Prop) [Decidable P] :
    (x ∈ (if P then [y] else ([] : List α))) ↔ (P ∧ x = y) := by
  split_ifs with h <;> simp [h]

/-- C4 (amended): whenever control reaches the legal-move generation of
`minimax` (the probe missed, the depth is nonzero, and the null-move stage
is not entered because the side is in check or the depth is below 3) and
the legal-move list is empty, the function returns
`-10000 + (5 - depth)` with 5 a hard-coded constant when the side to move
is in check, and exactly 0 otherwise. -/
theorem minimax_empty_move_list (Z : Zobrist) (fuel : Nat) (depth : Int) (c : Color)
    (alpha beta : Rat) (b : Board) (tt : TranspositionTable)
    (h1 : tt.probe (getHashKey b) depth = none) (h2 : ¬depth = 0)
    (h3 : ¬(depth ≥ 3 ∧ isKingInCheck b c = false))
    (h4 : (getAllLegalMoves Z b c).1 = []) :
    minimax Z (fuel + 1) depth c alpha beta b tt =
      (if isKingInCheck (getAllLegalMoves Z b c).2 c
        then ((-10000 : Rat) + ((5 - depth : Int) : Rat), tt) else (0, tt)) := by
  have e1 : minimax Z (fuel + 1) depth c alpha beta b tt =
      minimaxAfterProbe Z (minimax Z fuel) (quiescenceSearch Z fuel) (getHashKey b)
        depth c alpha beta b tt (tt.probe (getHashKey b) depth) := rfl
  rw [e1, h1]
  show minimaxCore Z (minimax Z fuel) (quiescenceSearch Z fuel) (getHashKey b)
      depth c alpha beta b tt = _
  unfold minimaxCore
  rw [if_neg h2, if_neg h3]
  show minimaxMovesGo Z (minimax Z fuel) (getHashKey b) depth c alpha beta
      (getAllLegalMoves Z b c).2 tt (getAllLegalMoves Z b c).1 = _
  rw [h4]
  rfl

theorem minimax_empty_move_list_witness :
    (ttE1.probe (getHashKey bMate) 1 = none ∧ ¬(1 : Int) = 0 ∧
      ¬((1 : Int) ≥ 3 ∧ isKingInCheck bMate BLACK = false) ∧
      (getAllLegalMoves zob0 bMate BLACK).1 = []) ∧
    minimax zob0 (0 + 1) 1 BLACK (-1000000000) 1000000000 bMate ttE1 =
      (if isKingInCheck (getAllLegalMoves zob0 bMate BLACK).2 BLACK
        then ((-10000 : Rat) + ((5 - 1 : Int) : Rat), ttE1) else (0, ttE1)) :=
  ⟨⟨rfl, by decide, fun hc => absurd hc.1 (by decide), rfl⟩,
   minimax_empty_move_list zob0 0 1 BLACK (-1000000000) 1000000000 bMate ttE1
     rfl (by decide) (fun hc => absurd hc.1 (by decide)) rfl⟩

/-- C4 counterexample: `bMate` is a checkmate with Black to move, one ply
from the root of a nominal depth-2 search (the root makes the mating move
and calls `minimax` with remaining depth 1). The claim predicts
`-matescore + plyFromRoot = -10000 + 1 = -9999`; the code returns
`-10000 + (5 - 1) = -9996` because the offset uses the hard-coded constant
5, not the ply distance from the root. -/
theorem minimax_mate_score_counterexample :
    (minimax zob0 1 1 BLACK (-1000000000) 1000000000 bMate ttE1).1 = -9996 ∧
    ¬((-9996 : Rat) = -10000 + 1) := by
  constructor
  · have e1 : (minimax zob0 1 1 BLACK (-1000000000) 1000000000 bMate ttE1).1 =
        (-10000 : Rat) + ((5 - 1 : Int) : Rat) := rfl
    rw [e1]; norm_num
  · norm_num

/-- C5: `King::addCastlingMoves` emits the king-side castling move exactly
when the king is not in check, the corresponding right holds, the two
squares f and g of the back rank are empty, and neither crossed square
(including the destination g) is attacked by the opponent; and the
queen-side move exactly when the king is not in check, the right holds, the
three squares b, c, d are empty, and the crossed squares c and d are not
attacked. -/
theorem castling_generation_conditions (b : Board) (c : Color) (pos : Position) :
    (({ fromSq := pos, toSq := ⟨pos.row, 6⟩ } : Move) ∈ addCastlingMoves c pos b ↔
      (isKingInCheck b c = false ∧
       ((c = WHITE ∧ canWhiteCastleKingside b = true) ∨
        (c = BLACK ∧ canBlackCastleKingside b = true)) ∧
       getPiece b ⟨pos.row, 5⟩ = none ∧ getPiece b ⟨pos.row, 6⟩ = none ∧
       isSquareAttackedBy b ⟨pos.row, 5⟩ (opposite c) = false ∧
       isSquareAttackedBy b ⟨pos.row, 6⟩ (opposite c) = false)) ∧
    (({ fromSq := pos, toSq := ⟨pos.row, 2⟩ } : Move) ∈ addCastlingMoves c pos b ↔
      (isKingInCheck b c = false ∧
       ((c = WHITE ∧ canWhiteCastleQueenside b = true) ∨
        (c = BLACK ∧ canBlackCastleQueenside b = true)) ∧
       getPiece b ⟨pos.row, 1⟩ = none ∧ getPiece b ⟨pos.row, 2⟩ = none ∧
       getPiece b ⟨pos.row, 3⟩ = none ∧
       isSquareAttackedBy b ⟨pos.row, 2⟩ (opposite c) = false ∧
       isSquareAttackedBy b ⟨pos.row, 3⟩ (opposite c) = false)) := by
  unfold addCastlingMoves
  by_cases hck : isKingInCheck b c
  · simp [hck]
  · have hck' : isKingInCheck b c = false := by simpa using hck
    rw [if_neg hck]
    constructor
    · rw [List.mem_append, mem_ite_singleton, mem_ite_singleton]
      simp [hck', Move.mk.injEq, Position.mk.injEq]
    · rw [List.mem_append, mem_ite_singleton, mem_ite_singleton]
      simp [hck', Move.mk.injEq, Position.mk.injEq]

/-- C6 (amended): `orderMoves` returns a permutation of the input sorted
stably in descending order of the scores assigned by `moveScoreList`
(promotion bonus 10000, plus victim value times 100 minus attacker value
with en passant treated as a pawn capture, plus 5000 when the probed move
gives check); the ordering consults no transposition table. -/
theorem orderMoves_sorts_by_score (Z : Zobrist) (b : Board) (moves : List Move)
    (l : List (Int × Move)) :
    (orderMoves Z b moves).Perm moves ∧
    (List.insertionSort scoreGE l).Sorted scoreGE ∧
    (orderMoves Z b moves = moves ∨
      ∃ pc, orderMoves Z b moves =
        (List.insertionSort scoreGE (moveScoreList Z b pc moves)).map Prod.snd) := by
  refine ⟨orderMoves_perm Z b moves, List.sorted_insertionSort scoreGE l, ?_⟩
  cases moves with
  | nil => exact Or.inl rfl
  | cons m0 rest =>
    cases h : getPiece b m0.fromSq with
    | none => exact Or.inl (by simp [orderMoves, h])
    | some q =>
      by_cases hc : q.color = NONE
      · exact Or.inl (by simp [orderMoves, h, hc])
      · exact Or.inr ⟨q.color, by simp [orderMoves, h, hc]⟩

/-- C6 counterexample: on `bOrd` the transposition table `ttOrd` stores the
quiet knight move as the best move of the position (the probe at the hash
of `bOrd` returns it), yet `orderMoves` puts the pawn capture first: move
ordering never consults the table, so the stored best move gets no
priority, let alone an overriding one. -/
theorem tt_best_move_not_prioritized :
    ttOrd.probe (getHashKey bOrd) 0 = some (0, EXACT, mOrdQuiet) ∧
    orderMoves zob0 bOrd [mOrdQuiet, mOrdCapture] = [mOrdCapture, mOrdQuiet] ∧
    ¬mOrdQuiet = mOrdCapture :=
  ⟨rfl, rfl, of_decide_eq_true rfl⟩

/-- C7: the transposition table indexes by `key % size`; `probe` returns a
stored payload exactly when the slot key matches and the stored depth is at
least the requested depth; `store` overwrites the slot exactly when it is
empty (key 0) or the new depth is at least the stored depth; and `minimax`
returns the stored score on an EXACT hit, beta on a LOWERBOUND hit with
score at least beta, and alpha on an UPPERBOUND hit with score at most
alpha. -/
theorem transposition_table_semantics (tt : TranspositionTable) (key : Nat)
    (depth d2 : Int) (s sc : Rat) (f fl : TTFlag) (m bm : Move) (i : Nat)
    (Z : Zobrist) (fuel : Nat) (c : Color) (alpha beta : Rat) (b : Board)
    (tt2 : TranspositionTable) :
    (tt.probe key depth = some (s, f, m) ↔
      ((tt.table (key % tt.size)).key = key ∧
       (tt.table (key % tt.size)).depth ≥ depth ∧
       (tt.table (key % tt.size)).score = s ∧
       (tt.table (key % tt.size)).flag = f ∧
       (tt.table (key % tt.size)).bestMove = m)) ∧
    ((tt.store key d2 sc fl bm).table i =
      if i = key % tt.size ∧
          ((tt.table (key % tt.size)).key = 0 ∨ d2 ≥ (tt.table (key % tt.size)).depth)
        then { key := key, depth := d2, score := sc, flag := fl, bestMove := bm }
        else tt.table i) ∧
    (tt2.probe (getHashKey b) depth = some (s, EXACT, m) →
      minimax Z (fuel + 1) depth c alpha beta b tt2 = (s, tt2)) ∧
    (tt2.probe (getHashKey b) depth = some (s, LOWERBOUND, m) → s ≥ beta →
      minimax Z (fuel + 1) depth c alpha beta b tt2 = (beta, tt2)) ∧
    (tt2.probe (getHashKey b) depth = some (s, UPPERBOUND, m) → s ≤ alpha →
      minimax Z (fuel + 1) depth c alpha beta b tt2 = (alpha, tt2)) := by
  refine ⟨?_, ?_, ?_, ?_, ?_⟩
  · unfold TranspositionTable.probe
    by_cases hc : (tt.table (key % tt.size)).key = key ∧
        (tt.table (key % tt.size)).depth ≥ depth
    · rw [if_pos hc]
      simp only [Option.some.injEq, Prod.mk.injEq]
      constructor
      · rintro ⟨hs, hf, hm⟩
        exact ⟨hc.1, hc.2, hs, hf, hm⟩
      · rintro ⟨_, _, hs, hf, hm⟩
        exact ⟨hs, hf, hm⟩
    · rw [if_neg hc]
      simp only [false_iff, reduceCtorEq]
      rintro ⟨hk, hd, _⟩
      exact hc ⟨hk, hd⟩
  · unfold TranspositionTable.store
    by_cases hov : (tt.table (key % tt.size)).key = 0 ∨ d2 ≥ (tt.table (key % tt.size)).depth
    · rw [if_pos hov]
      by_cases hi : i = key % tt.size
      · rw [if_pos ⟨hi, hov⟩]
        simp [hi]
      · rw [if_neg (fun hand => hi hand.1)]
        simp [hi]
    · rw [if_neg hov]
      rw [if_neg (fun hand => hov hand.2)]
  · intro hp
    have e1 : minimax Z (fuel + 1) depth c alpha beta b tt2 =
        minimaxAfterProbe Z (minimax Z fuel) (quiescenceSearch Z fuel) (getHashKey b)
          depth c alpha beta b tt2 (tt2.probe (getHashKey b) depth) := rfl
    rw [e1, hp]
    rfl
  · intro hp hs
    have e1 : minimax Z (fuel + 1) depth c alpha beta b tt2 =
        minimaxAfterProbe Z (minimax Z fuel) (quiescenceSearch Z fuel) (getHashKey b)
          depth c alpha beta b tt2 (tt2.probe (getHashKey b) depth) := rfl
    rw [e1, hp]
    show (if ((s, LOWERBOUND, m) : Rat × TTFlag × Move).2.1 = EXACT
        then (((s, LOWERBOUND, m) : Rat × TTFlag × Move).1, tt2)
        else if ((s, LOWERBOUND, m) : Rat × TTFlag × Move).2.1 = LOWERBOUND ∧
            ((s, LOWERBOUND, m) : Rat × TTFlag × Move).1 ≥ beta then (beta, tt2)
        else if ((s, LOWERBOUND, m) : Rat × TTFlag × Move).2.1 = UPPERBOUND ∧
            ((s, LOWERBOUND, m) : Rat × TTFlag × Move).1 ≤ alpha then (alpha, tt2)
        else minimaxCore Z (minimax Z fuel) (quiescenceSearch Z fuel) (getHashKey b)
          depth c alpha beta b tt2) = (beta, tt2)
    rw [if_neg (by simp), if_pos ⟨rfl, hs⟩]
  · intro hp hs
    have e1 : minimax Z (fuel + 1) depth c alpha beta b tt2 =
        minimaxAfterProbe Z (minimax Z fuel) (quiescenceSearch Z fuel) (getHashKey b)
          depth c alpha beta b tt2 (tt2.probe (getHashKey b) depth) := rfl
    rw [e1, hp]
    show (if ((s, UPPERBOUND, m) : Rat × TTFlag × Move).2.1 = EXACT
        then (((s, UPPERBOUND, m) : Rat × TTFlag × Move).1, tt2)
        else if ((s, UPPERBOUND, m) : Rat × TTFlag × Move).2.1 = LOWERBOUND ∧
            ((s, UPPERBOUND, m) : Rat × TTFlag × Move).1 ≥ beta then (beta, tt2)
        else if ((s, UPPERBOUND, m) : Rat × TTFlag × Move).2.1 = UPPERBOUND ∧
            ((s, UPPERBOUND, m) : Rat × TTFlag × Move).1 ≤ alpha then (alpha, tt2)
        else minimaxCore Z (minimax Z fuel) (quiescenceSearch Z fuel) (getHashKey b)
          depth c alpha beta b tt2) = (alpha, tt2)
    rw [if_neg (by simp), if_neg (by simp), if_pos ⟨rfl, hs⟩]

theorem transposition_table_semantics_witness :
    (ttExact.probe (getHashKey bTT) 1 = some (17, EXACT, mvTT) ∧
      minimax zob0 (0 + 1) 1 WHITE 0 1 bTT ttExact = (17, ttExact)) ∧
    (ttLower.probe (getHashKey bTT) 1 = some (17, LOWERBOUND, mvTT) ∧ (17 : Rat) ≥ 10 ∧
      minimax zob0 (0 + 1) 1 WHITE 5 10 bTT ttLower = (10, ttLower)) ∧
    (ttUpper.probe (getHashKey bTT) 1 = some (17, UPPERBOUND, mvTT) ∧ (17 : Rat) ≤ 20 ∧
      minimax zob0 (0 + 1) 1 WHITE 20 30 bTT ttUpper = (20, ttUpper)) :=
  ⟨⟨rfl, (transposition_table_semantics ttExact 5 1 1 17 17 EXACT EXACT mvTT mvTT 0
      zob0 0 WHITE 0 1 bTT ttExact).2.2.1 rfl⟩,
   ⟨rfl, by norm_num,
    (transposition_table_semantics ttLower 5 1 1 17 17 EXACT EXACT mvTT mvTT 0
      zob0 0 WHITE 5 10 bTT ttLower).2.2.2.1 rfl (by norm_num)⟩,
   ⟨rfl, by norm_num,
    (transposition_table_semantics ttUpper 5 1 1 17 17 EXACT EXACT mvTT mvTT 0
      zob0 0 WHITE 20 30 bTT ttUpper).2.2.2.2 rfl (by norm_num)⟩⟩

/-- C8: after a probe miss and with nonzero depth, `minimax` enters
null-move pruning exactly when the remaining depth is at least 3 and the
side to move is not in check; it then applies `makeNullMove`, searches the
opponent at depth `depth - 3` with the null window `[-beta, -beta + 1]`,
applies `unmakeNullMove` (which restores the board exactly, so the
continuation sees `b` again), and returns beta when the negated result is
at least beta; otherwise, and whenever the entry condition fails, it
proceeds directly to the move search. -/
theorem nullmove_pruning_structure (Z : Zobrist) (fuel : Nat) (depth : Int)
    (c : Color) (alpha beta : Rat) (b : Board) (tt : TranspositionTable)
    (h1 : tt.probe (getHashKey b) depth = none) (h2 : ¬depth = 0) :
    ((depth ≥ 3 ∧ isKingInCheck b c = false) →
      minimax Z (fuel + 1) depth c alpha beta b tt =
        (let st := minimax Z fuel (depth - 3) (opposite c) (-beta) (-beta + 1)
            (makeNullMove Z b) tt
         if -st.1 ≥ beta then (beta, st.2)
         else minimaxMoves Z (minimax Z fuel) (getHashKey b) depth c alpha beta b st.2)) ∧
    (¬(depth ≥ 3 ∧ isKingInCheck b c = false) →
      minimax Z (fuel + 1) depth c alpha beta b tt =
        minimaxMoves Z (minimax Z fuel) (getHashKey b) depth c alpha beta b tt) := by
  have e1 : minimax Z (fuel + 1) depth c alpha beta b tt =
      minimaxAfterProbe Z (minimax Z fuel) (quiescenceSearch Z fuel) (getHashKey b)
        depth c alpha beta b tt (tt.probe (getHashKey b) depth) := rfl
  constructor
  · intro hc
    rw [e1, h1]
    show minimaxCore Z (minimax Z fuel) (quiescenceSearch Z fuel) (getHashKey b)
        depth c alpha beta b tt = _
    unfold minimaxCore
    rw [if_neg h2, if_pos hc]
    simp only [makeNull_unmakeNull]
  · intro hc
    rw [e1, h1]
    show minimaxCore Z (minimax Z fuel) (quiescenceSearch Z fuel) (getHashKey b)
        depth c alpha beta b tt = _
    unfold minimaxCore
    rw [if_neg h2, if_neg hc]

theorem nullmove_pruning_structure_witness :
    (ttE1.probe (getHashKey bKK) 3 = none ∧ ¬(3 : Int) = 0 ∧
      ((3 : Int) ≥ 3 ∧ isKingInCheck bKK WHITE = false)) ∧
    minimax zob0 (0 + 1) 3 WHITE 0 10 bKK ttE1 =
      (let st := minimax zob0 0 ((3 : Int) - 3) (opposite WHITE) (-10) (-10 + 1)
          (makeNullMove zob0 bKK) ttE1
       if -st.1 ≥ 10 then (10, st.2)
       else minimaxMoves zob0 (minimax zob0 0) (getHashKey bKK) 3 WHITE 0 10 bKK st.2) :=
  ⟨⟨rfl, by decide, by norm_num, rfl⟩,
   (nullmove_pruning_structure zob0 0 3 WHITE 0 10 bKK ttE1 rfl (by decide)).1
     ⟨by norm_num, rfl⟩⟩

/-- C9: the static evaluation accumulates a single White-positive score
over side-independent terms and negates it at the very end exactly when the
requested side is not White, so it is antisymmetric between the two sides
and deterministic. -/
theorem evaluatePosition_antisymmetric (b : Board) :
    evaluatePosition b BLACK = -evaluatePosition b WHITE ∧
    (∀ c : Color, evaluatePosition b c = evaluatePosition b c) := by
  refine ⟨?_, fun _ => rfl⟩
  simp [evaluatePosition]

/-- C10: every square-indexed query and update is total: outside the board
`getPiece` returns none (null), `getPieceColor` returns NONE, and
`setPiece` leaves the board unchanged; no out-of-range access touches the
grid. -/
theorem out_of_range_queries_total (b : Board) (pos : Position) (op : Option Piece)
    (h : isValidPosition pos = false) :
    getPiece b pos = none ∧ getPieceColor b pos = NONE ∧ setPiece b pos op = b := by
  refine ⟨?_, ?_, ?_⟩
  · simp [getPiece, h]
  · simp [getPieceColor, getPiece, h]
  · simp [setPiece, h]

theorem out_of_range_queries_total_witness :
    isValidPosition (⟨-1, 0⟩ : Position) = false ∧
    (getPiece bPawn ⟨-1, 0⟩ = none ∧ getPieceColor bPawn ⟨-1, 0⟩ = NONE ∧
      setPiece bPawn ⟨-1, 0⟩ (some ⟨WHITE, QUEEN⟩) = bPawn) :=
  ⟨rfl, out_of_range_queries_total bPawn ⟨-1, 0⟩ (some ⟨WHITE, QUEEN⟩) rfl⟩
